import Mathlib

/-!
# Verification of the pronunciation-practice core (`src/main.py`)

Shallow embedding of the pure core of the repository:

* `normalize_text`   — strip `string.punctuation`, lowercase (main.py 140–142)
* `evaluate_pronunciation` — positional scoring and highlighting (main.py 144–156)
* `calculate_dynamic_duration` — word-count based duration (main.py 85–87)
* `split_audio_per_word` — per-word audio segmentation (main.py 124–138)

Python specifics embedded here:

* `str.split()` with no argument splits on runs of whitespace and drops
  empty pieces (`pySplit`).
* `string.punctuation` is exactly the ASCII characters with code points in
  the ranges 33–47, 58–64, 91–96 and 123–126 (`isPunct`).
* `str.lower` on the ASCII range maps code points 65–90 to 97–122; this is
  Lean's `Char.toLower`.
* `round(x, 2)` rounds half to even at two decimals (`round2`).
* `int(x)` truncates toward zero (`pyInt`).
* `termcolor.colored(text, color)` wraps `text` in the ANSI escape
  `\x1b[{code}m … \x1b[0m` (`colored`).
* list/`AudioSegment` slicing `a[i:j]` clamps indices and interprets
  negative indices from the end (`pySlice`, `pydubSlice`).
-/

/-- Python whitespace at the ASCII level: space, `\t`, `\n`, `\v`, `\f`, `\r`
(the characters `str.split()` splits on, restricted to ASCII). -/
def pyIsSpace (c : Char) : Bool :=
  c.toNat = 32 || c.toNat = 9 || c.toNat = 10 || c.toNat = 11 ||
  c.toNat = 12 || c.toNat = 13

/-- Membership in Python's `string.punctuation`
(`!"#$%&'()*+,-./:;<=>?@[\]^_`{|}~`, i.e. ASCII 33–47, 58–64, 91–96,
123–126). -/
def isPunct (c : Char) : Bool :=
  (33 ≤ c.toNat && c.toNat ≤ 47) || (58 ≤ c.toNat && c.toNat ≤ 64) ||
  (91 ≤ c.toNat && c.toNat ≤ 96) || (123 ≤ c.toNat && c.toNat ≤ 126)

/-- Python `str.split()` with no separator, on a list of characters:
split on runs of whitespace, dropping empty pieces. -/
def splitWords : List Char → List (List Char)
  | [] => []
  | [c] => if pyIsSpace c then [] else [[c]]
  | c :: d :: cs =>
    let rest := splitWords (d :: cs)
    if pyIsSpace c then rest
    else if pyIsSpace d then [c] :: rest
    else
      match rest with
      | [] => [[c]]
      | w :: ws => (c :: w) :: ws

/-- Python `str.split()` on a string. -/
def pySplit (s : String) : List String :=
  (splitWords s.data).map String.mk

/-- `normalize_text` (main.py 140–142):
`text.translate(str.maketrans('', '', string.punctuation)).lower()` —
remove every punctuation character, then lowercase. -/
def normalize_text (text : String) : String :=
  String.mk (((text.data.filter (fun c => !isPunct c)).map Char.toLower))

/-- ANSI code used by `termcolor` for each color name appearing in main.py. -/
def colorCode (color : String) : Nat :=
  if color = "red" then 31
  else if color = "green" then 32
  else if color = "yellow" then 33
  else if color = "cyan" then 36
  else if color = "white" then 37
  else 0

/-- `termcolor.colored(text, color)`: wrap `text` in the ANSI escape
sequence for `color` followed by the reset sequence. -/
def colored (text color : String) : String :=
  "\x1b[" ++ toString (colorCode color) ++ "m" ++ text ++ "\x1b[0m"

/-- Python `zip` over three lists (truncates to the shortest). -/
def zip3 {α β γ : Type} : List α → List β → List γ → List (α × β × γ)
  | a :: as, b :: bs, c :: cs => (a, b, c) :: zip3 as bs cs
  | _, _, _ => []

/-- `evaluate_pronunciation` (main.py 144–156): normalize and split both
texts, collect index-wise mismatching pairs, and build the highlighted
transcription.  The source iterates
`zip(transcribed_words, transcribed_words, correct_words)` for the
highlighting, coloring mismatches red and matches green. -/
def evaluate_pronunciation (transcribed_text correct_text : String) :
    List (String × String) × String :=
  let transcribed_words := pySplit (normalize_text transcribed_text)
  let correct_words := pySplit (normalize_text correct_text)
  let mistakes :=
    (transcribed_words.zip correct_words).filter (fun p => p.1 != p.2)
  let highlighted_text :=
    String.intercalate " "
      ((zip3 transcribed_words transcribed_words correct_words).map
        (fun p => if p.2.1 != p.2.2 then colored p.1 "red" else colored p.1 "green"))
  (mistakes, highlighted_text)

/-- Round a rational to the nearest integer, ties to even
(Python's `round` on non-negative halves; the code only rounds the
non-negative quantity `wordCount / wordsPerSecond`). -/
def roundHalfEven (q : ℚ) : ℤ :=
  let f := ⌊q⌋
  let r := q - f
  if r < 1/2 then f
  else if 1/2 < r then f + 1
  else if f % 2 = 0 then f else f + 1

/-- Python `round(x, 2)`: round to two decimal places. -/
def round2 (q : ℚ) : ℚ := (roundHalfEven (q * 100) : ℚ) / 100

/-- `calculate_dynamic_duration` (main.py 85–87):
`max(round(len(text.split()) / WORDS_PER_SECOND, 2), MIN_RECORD_DURATION)`.
The environment-sourced globals `WORDS_PER_SECOND` and
`MIN_RECORD_DURATION` are passed as parameters. -/
def calculate_dynamic_duration (text : String)
    (WORDS_PER_SECOND MIN_RECORD_DURATION : ℚ) : ℚ :=
  max (round2 ((pySplit text).length / WORDS_PER_SECOND)) MIN_RECORD_DURATION

/-- Python `int(x)`: truncation toward zero. -/
def pyInt (q : ℚ) : ℤ := if 0 ≤ q then ⌊q⌋ else -⌊-q⌋

/-- Resolution of one bound of a Python slice over a sequence of length
`n`: a negative index counts from the end, then the bound is clamped to
`[0, n]`. -/
def pyIdx (n i : ℤ) : ℤ := if i < 0 then max (n + i) 0 else min i n

/-- Python sequence slicing `l[a:b]`: resolve both bounds with `pyIdx`;
an empty slice results when the lower bound is not below the upper. -/
def pySlice {α : Type} (l : List α) (a b : ℤ) : List α :=
  (l.drop (pyIdx l.length a).toNat).take (pyIdx l.length b - pyIdx l.length a).toNat

/-- `pydub`'s `_parse_position` after the initial `min(·, len(self))`
clamp in `AudioSegment.__getitem__`: clamp the millisecond offset to at
most the length, then re-base a negative offset from the end. -/
def pydubPos (n v : ℤ) : ℤ := if min v n < 0 then n + min v n else min v n

/-- `pydub.AudioSegment.__getitem__` with a slice in milliseconds: both
bounds go through `pydubPos` and the underlying data is sliced with
Python semantics.  `audio` is modelled at millisecond resolution (one
list element per millisecond of audio). -/
def pydubSlice {α : Type} (audio : List α) (s e : ℤ) : List α :=
  pySlice audio (pydubPos audio.length s) (pydubPos audio.length e)

/-- One entry of the word-timing sequence returned by
`transcribe_with_timestamps`: `{word, start, end}` with times in seconds. -/
structure WordTiming where
  word : String
  start : ℚ
  «end» : ℚ
deriving Repr, DecidableEq

/-- The loop body of `split_audio_per_word` (main.py 133–137): for the word
at 0-based index `i`, slice `audio[int(start*1000):int(end*1000)]`, name
the export `word_{i+1}_{word}.wav` inside `OUTPUT_DIR`, and append it. -/
def splitLoop (OUTPUT_DIR : String) (audio : List ℤ) :
    List WordTiming → ℕ → List (String × List ℤ)
  | [], _ => []
  | w :: ws, i =>
    let segment := pydubSlice audio (pyInt (w.start * 1000)) (pyInt (w.«end» * 1000))
    let output_file := OUTPUT_DIR ++ "/word_" ++ toString (i + 1) ++ "_" ++ w.word ++ ".wav"
    (output_file, segment) :: splitLoop OUTPUT_DIR audio ws (i + 1)

/-- Observable outcome of one `split_audio_per_word` call: the contents of
`OUTPUT_DIR` after the call (`none` would mean the directory does not
exist — after the call it always exists), the returned `word_files` list,
and the audio data written to each file, in order. -/
structure SegmentResult where
  dirContents : Option (List String)
  word_files : List String
  segments : List (List ℤ)
deriving Repr, DecidableEq

/-- `split_audio_per_word` (main.py 124–138): delete `OUTPUT_DIR` if it
exists, recreate it empty, then export one slice per word-timing entry.
`priorDir` is the state of `OUTPUT_DIR` before the call (`none` if it does
not exist); the reset makes the outcome independent of it. -/
def split_audio_per_word (OUTPUT_DIR : String)
    (priorDir : Option (List String)) (audio : List ℤ)
    (words : List WordTiming) : SegmentResult :=
  let exports := splitLoop OUTPUT_DIR audio words 0
  { dirContents := some (exports.map Prod.fst)
    word_files := exports.map Prod.fst
    segments := exports.map Prod.snd }

/-! ## Character-level lemmas -/

lemma char_toNat_ofNat {n : Nat} (h : n < 55296) : (Char.ofNat n).toNat = n := by
  have hv : n.isValidChar := Or.inl h
  rw [Char.ofNat, dif_pos hv]
  simp [Char.ofNatAux, Char.toNat, UInt32.toNat]

lemma toLower_toNat (c : Char) :
    (Char.toLower c).toNat =
      if 65 ≤ c.toNat ∧ c.toNat ≤ 90 then c.toNat + 32 else c.toNat := by
  rw [Char.toLower]
  split
  · exact char_toNat_ofNat (by omega)
  · rfl

lemma toLower_eq_self {c : Char} (h : ¬(65 ≤ c.toNat ∧ c.toNat ≤ 90)) :
    Char.toLower c = c := by
  rw [Char.toLower, if_neg h]

lemma toLower_toLower (c : Char) :
    Char.toLower (Char.toLower c) = Char.toLower c := by
  apply toLower_eq_self
  have h := toLower_toNat c
  split at h <;> omega

lemma isPunct_iff (c : Char) :
    isPunct c = true ↔
      ((33 ≤ c.toNat ∧ c.toNat ≤ 47) ∨ (58 ≤ c.toNat ∧ c.toNat ≤ 64) ∨
       (91 ≤ c.toNat ∧ c.toNat ≤ 96) ∨ (123 ≤ c.toNat ∧ c.toNat ≤ 126)) := by
  simp [isPunct]
  omega

lemma pyIsSpace_iff (c : Char) :
    pyIsSpace c = true ↔
      (c.toNat = 32 ∨ c.toNat = 9 ∨ c.toNat = 10 ∨ c.toNat = 11 ∨
       c.toNat = 12 ∨ c.toNat = 13) := by
  simp [pyIsSpace]
  omega

lemma isUpper_iff (c : Char) :
    c.isUpper = true ↔ (65 ≤ c.toNat ∧ c.toNat ≤ 90) := by
  simp [Char.isUpper, Char.toNat, UInt32.le_def, BitVec.le_def, UInt32.toNat]

lemma isPunct_toLower (c : Char) :
    isPunct (Char.toLower c) = isPunct c := by
  rw [Bool.eq_iff_iff, isPunct_iff, isPunct_iff]
  have h := toLower_toNat c
  split at h <;> omega

lemma pyIsSpace_toLower (c : Char) :
    pyIsSpace (Char.toLower c) = pyIsSpace c := by
  rw [Bool.eq_iff_iff, pyIsSpace_iff, pyIsSpace_iff]
  have h := toLower_toNat c
  split at h <;> omega

lemma toLower_of_space {c : Char} (h : pyIsSpace c = true) :
    Char.toLower c = c := by
  rw [pyIsSpace_iff] at h
  exact toLower_eq_self (by omega)

lemma isUpper_toLower (c : Char) : (Char.toLower c).isUpper = false := by
  rw [← Bool.not_eq_true, isUpper_iff]
  have h := toLower_toNat c
  split at h <;> omega

lemma not_isPunct_of_space {c : Char} (h : pyIsSpace c = true) :
    isPunct c = false := by
  rw [pyIsSpace_iff] at h
  rw [← Bool.not_eq_true, isPunct_iff]
  omega

/-! ## Lemmas about `normalize_text` -/

lemma normalize_text_data (s : String) :
    (normalize_text s).data =
      (s.data.filter (fun c => !isPunct c)).map Char.toLower := rfl

lemma filter_space_map_toLower (l : List Char) :
    (l.map Char.toLower).filter pyIsSpace = (l.filter pyIsSpace).map Char.toLower := by
  rw [List.filter_map]
  congr 1
  exact List.filter_congr fun c _ => by simp [Function.comp, pyIsSpace_toLower]

lemma map_toLower_of_space (l : List Char) :
    ((l.filter pyIsSpace).map Char.toLower) = l.filter pyIsSpace := by
  rw [List.map_congr_left (g := id), List.map_id]
  intro a ha
  exact toLower_of_space (List.mem_filter.mp ha).2

/-- C8: `normalize` removes all punctuation characters, lowercases the
result (no ASCII uppercase letter remains), does not alter whitespace
(the whitespace characters of the input survive unchanged, in order), and
maps empty or punctuation-only input to the empty string. -/
theorem normalize_text_spec (s : String) :
    (∀ c ∈ (normalize_text s).data, isPunct c = false) ∧
    (∀ c ∈ (normalize_text s).data, c.isUpper = false) ∧
    ((normalize_text s).data.filter pyIsSpace = s.data.filter pyIsSpace) ∧
    ((∀ c ∈ s.data, isPunct c = true) → normalize_text s = "") := by
  refine ⟨?_, ?_, ?_, ?_⟩
  · intro c hc
    rw [normalize_text_data] at hc
    obtain ⟨b, hb, rfl⟩ := List.mem_map.mp hc
    rw [isPunct_toLower]
    have := (List.mem_filter.mp hb).2
    simpa using this
  · intro c hc
    rw [normalize_text_data] at hc
    obtain ⟨b, _, rfl⟩ := List.mem_map.mp hc
    exact isUpper_toLower b
  · rw [normalize_text_data, filter_space_map_toLower, List.filter_filter]
    have h2 : s.data.filter (fun a => pyIsSpace a && !isPunct a)
        = s.data.filter pyIsSpace := by
      apply List.filter_congr
      intro c _
      cases hsp : pyIsSpace c
      · rfl
      · simp [not_isPunct_of_space hsp]
    rw [h2, map_toLower_of_space]
  · intro h
    apply String.ext
    rw [normalize_text_data]
    have hnil : s.data.filter (fun c => !isPunct c) = [] :=
      List.filter_eq_nil_iff.mpr fun a ha => by simp [h a ha]
    rw [hnil]
    rfl

/-- C8 (witness): a punctuation-only input normalizes to the empty
string. -/
theorem normalize_text_spec_witness : normalize_text "?!." = "" :=
  (normalize_text_spec "?!.").2.2.2 (by decide)

/-- C9: `normalize` is idempotent:
`normalize(normalize(s)) = normalize(s)` for every string `s`. -/
theorem normalize_text_idempotent (s : String) :
    normalize_text (normalize_text s) = normalize_text s := by
  apply String.ext
  rw [normalize_text_data, normalize_text_data, List.filter_map, List.map_map]
  have h1 : (s.data.filter (fun c => !isPunct c)).filter
      ((fun c => !isPunct c) ∘ Char.toLower)
      = s.data.filter (fun c => !isPunct c) := by
    rw [List.filter_filter]
    apply List.filter_congr
    intro c _
    simp [Function.comp, isPunct_toLower, Bool.and_self]
  rw [h1]
  exact List.map_congr_left fun c _ => toLower_toLower c

/-! ## Lemmas about the scorer -/

/-- The token sequence the scorer compares: normalize, then split —
`normalize_text(x).split()` for either argument of
`evaluate_pronunciation`. -/
def scoreTokens (s : String) : List String := pySplit (normalize_text s)

lemma zip_eq_range_map (l m : List String) :
    l.zip m = (List.range (min l.length m.length)).map
      (fun i => (l.getD i "", m.getD i "")) := by
  induction l generalizing m with
  | nil => simp
  | cons a as ih =>
    cases m with
    | nil => simp
    | cons b bs =>
      simp only [List.zip_cons_cons, List.length_cons, Nat.succ_min_succ,
        List.range_succ_eq_map, List.map_cons, List.map_map]
      refine congrArg₂ _ rfl ?_
      rw [ih bs]
      rfl

lemma filter_map_eq_filterMap {α β : Type} (p : β → Bool) (f : α → β)
    (l : List α) :
    (l.map f).filter p
      = l.filterMap (fun a => if p (f a) then some (f a) else none) := by
  induction l with
  | nil => rfl
  | cons a as ih =>
    simp only [List.map_cons, List.filter_cons, List.filterMap_cons]
    cases h : p (f a) <;> simp [h, ih]

lemma zip3_self {α β : Type} (l : List α) (m : List β) :
    zip3 l l m = (l.zip m).map (fun p => (p.1, p.1, p.2)) := by
  induction l generalizing m with
  | nil => rfl
  | cons a as ih =>
    cases m with
    | nil => rfl
    | cons b bs => simpa [zip3] using ih bs

lemma zip3_nil_third {α β : Type} (l : List α) (m : List β) :
    zip3 l m ([] : List String) = [] := by
  cases l <;> cases m <;> rfl

/-- C1: the mismatches of `evaluate_pronunciation` are exactly the ordered
pairs `(transcribed token i, expected token i)` over the compared
positions `i < min(len(transcribed), len(expected))` where the two tokens
differ (tokens beyond the shorter sequence are ignored), and the mismatch
list is empty iff every compared position matched. -/
theorem evaluate_pronunciation_mistakes_spec (t c : String) :
    (evaluate_pronunciation t c).1 =
      (List.range (min (scoreTokens t).length (scoreTokens c).length)).filterMap
        (fun i => if (scoreTokens t).getD i "" ≠ (scoreTokens c).getD i ""
          then some ((scoreTokens t).getD i "", (scoreTokens c).getD i "")
          else none) ∧
    ((evaluate_pronunciation t c).1 = [] ↔
      ∀ i < min (scoreTokens t).length (scoreTokens c).length,
        (scoreTokens t).getD i "" = (scoreTokens c).getD i "") := by
  have hdef : (evaluate_pronunciation t c).1
      = ((scoreTokens t).zip (scoreTokens c)).filter (fun p => p.1 != p.2) := rfl
  constructor
  · rw [hdef, zip_eq_range_map, filter_map_eq_filterMap]
    apply List.filterMap_congr
    intro i _
    by_cases h : (scoreTokens t).getD i "" = (scoreTokens c).getD i "" <;> simp [h]
  · rw [hdef, List.filter_eq_nil_iff, zip_eq_range_map]
    constructor
    · intro h i hi
      have := h ((scoreTokens t).getD i "", (scoreTokens c).getD i "")
        (List.mem_map.mpr ⟨i, List.mem_range.mpr hi, rfl⟩)
      simpa using this
    · intro h p hp
      obtain ⟨i, hi, rfl⟩ := List.mem_map.mp hp
      simpa using h i (List.mem_range.mp hi)

/-- C2 (amended): the annotated text consists of the FIRST
`min(len(transcribed), len(expected))` normalized transcribed tokens
joined by single spaces, each colored red on mismatch and green on match;
transcribed tokens beyond the expected sequence's length are omitted
(the source zips the transcribed tokens against the expected tokens, so
the highlighting truncates to the shorter sequence). -/
theorem evaluate_pronunciation_highlight_spec (t c : String) :
    (evaluate_pronunciation t c).2 =
      String.intercalate " "
        ((List.range (min (scoreTokens t).length (scoreTokens c).length)).map
          (fun i => if (scoreTokens t).getD i "" ≠ (scoreTokens c).getD i ""
            then colored ((scoreTokens t).getD i "") "red"
            else colored ((scoreTokens t).getD i "") "green")) := by
  have hdef : (evaluate_pronunciation t c).2
      = String.intercalate " "
          ((zip3 (scoreTokens t) (scoreTokens t) (scoreTokens c)).map
            (fun p => if p.2.1 != p.2.2 then colored p.1 "red"
              else colored p.1 "green")) := rfl
  rw [hdef, zip3_self, List.map_map, zip_eq_range_map, List.map_map]
  refine congrArg _ (List.map_congr_left fun i _ => ?_)
  by_cases h : (scoreTokens t).getD i "" = (scoreTokens c).getD i "" <;>
    simp [Function.comp, h]

/-- C2 (counterexample): with transcribed `"a b"` and expected `"a"`, the
normalized transcribed tokens are `["a", "b"]`, but the annotated text is
just the single green token `"a"` — the character of the second
transcribed token `"b"` does not occur anywhere in it, so the annotated
output does not contain every normalized transcribed token. -/
theorem evaluate_pronunciation_highlight_cex :
    scoreTokens "a b" = ["a", "b"] ∧
    (evaluate_pronunciation "a b" "a").2 = colored "a" "green" ∧
    'b' ∉ (evaluate_pronunciation "a b" "a").2.data := by
  refine ⟨by decide, by decide, by decide⟩

/-- C7: if either input normalizes to the empty token sequence, zero
positions are compared: the mismatch list is empty and the annotated text
is the empty string; in particular `score("", x)` and `score(x, "")`
yield zero mismatches for every string `x`. -/
theorem evaluate_pronunciation_empty_spec :
    (∀ t c : String, scoreTokens t = [] ∨ scoreTokens c = [] →
      (evaluate_pronunciation t c).1 = [] ∧ (evaluate_pronunciation t c).2 = "") ∧
    (∀ x : String,
      (evaluate_pronunciation "" x).1 = [] ∧ (evaluate_pronunciation x "").1 = []) := by
  have main : ∀ t c : String, scoreTokens t = [] ∨ scoreTokens c = [] →
      (evaluate_pronunciation t c).1 = [] ∧ (evaluate_pronunciation t c).2 = "" := by
    intro t c h
    have hdef1 : (evaluate_pronunciation t c).1
        = ((scoreTokens t).zip (scoreTokens c)).filter (fun p => p.1 != p.2) := rfl
    have hdef2 : (evaluate_pronunciation t c).2
        = String.intercalate " "
            ((zip3 (scoreTokens t) (scoreTokens t) (scoreTokens c)).map
              (fun p => if p.2.1 != p.2.2 then colored p.1 "red"
                else colored p.1 "green")) := rfl
    rcases h with h | h
    · rw [hdef1, hdef2, h]
      refine ⟨by simp [zip3], ?_⟩
      simp [zip3]
      rfl
    · rw [hdef1, hdef2, h, List.zip_nil_right, zip3_nil_third]
      refine ⟨by simp, ?_⟩
      simp
      rfl
  exact ⟨main, fun x => ⟨(main "" x (Or.inl rfl)).1, (main x "" (Or.inr rfl)).1⟩⟩

/-- C7 (witness): concrete instances of the empty-input edge case. -/
theorem evaluate_pronunciation_empty_witness :
    (evaluate_pronunciation "" "good morning").1 = [] ∧
    (evaluate_pronunciation "good morning" "").1 = [] ∧
    (evaluate_pronunciation "" "good morning").2 = "" := by
  have h := evaluate_pronunciation_empty_spec
  exact ⟨(h.2 "good morning").1, (h.2 "good morning").2,
    (h.1 "" "good morning" (Or.inl rfl)).2⟩

/-! ## Duration estimator -/

/-- C5: `calculate_dynamic_duration` computes the whitespace-delimited
word count of the text divided by `WORDS_PER_SECOND`, rounds it to two
decimal places, then clamps the result to be no less than
`MIN_RECORD_DURATION`; consequently the result is always at least
`MIN_RECORD_DURATION`. -/
theorem calculate_dynamic_duration_spec (text : String) (wps minDur : ℚ)
    (h : 0 < wps) :
    calculate_dynamic_duration text wps minDur
      = max (round2 (((pySplit text).length : ℚ) / wps)) minDur ∧
    minDur ≤ calculate_dynamic_duration text wps minDur :=
  ⟨rfl, le_max_right _ _⟩

/-- C5 (witness): a three-word prompt at one word per second with a
five-second minimum. -/
theorem calculate_dynamic_duration_spec_witness :
    (0 : ℚ) < 1 ∧
    calculate_dynamic_duration "good morning team" 1 5
      = max (round2 (((pySplit "good morning team").length : ℚ) / 1)) 5 ∧
    (5 : ℚ) ≤ calculate_dynamic_duration "good morning team" 1 5 :=
  ⟨by decide, (calculate_dynamic_duration_spec "good morning team" 1 5 (by decide)).1,
    (calculate_dynamic_duration_spec "good morning team" 1 5 (by decide)).2⟩

/-- C10: a text with zero whitespace-delimited words yields exactly the
configured minimum recording duration (for any non-negative minimum). -/
theorem calculate_dynamic_duration_zero_words (text : String)
    (wps minDur : ℚ) (h0 : pySplit text = []) (h1 : 0 ≤ minDur) :
    calculate_dynamic_duration text wps minDur = minDur := by
  unfold calculate_dynamic_duration
  rw [h0]
  have hz : round2 ((([] : List String).length : ℚ) / wps) = 0 := by
    unfold round2 roundHalfEven
    norm_num
  rw [hz]
  exact max_eq_right h1

/-- C10 (witness): a whitespace-only prompt with minimum duration 3. -/
theorem calculate_dynamic_duration_zero_words_witness :
    pySplit "   " = [] ∧ (0 : ℚ) ≤ 3 ∧
    calculate_dynamic_duration "   " 2 3 = 3 :=
  ⟨by decide, by decide,
    calculate_dynamic_duration_zero_words "   " 2 3 (by decide) (by decide)⟩

/-! ## Word segmenter -/

instance : Inhabited WordTiming := ⟨⟨"", 0, 0⟩⟩

lemma splitLoop_length (d : String) (a : List ℤ) (ws : List WordTiming) :
    ∀ i : ℕ, (splitLoop d a ws i).length = ws.length := by
  induction ws with
  | nil => intro i; rfl
  | cons w ws ih => intro i; simpa [splitLoop] using ih (i + 1)

lemma getD_map {α β : Type} (f : α → β) (l : List α) (d : α) (i : ℕ)
    (h : i < l.length) :
    (l.map f).getD i (f d) = f (l.getD i d) := by
  induction l generalizing i with
  | nil => simp at h
  | cons a as ih =>
    cases i with
    | zero => rfl
    | succ j => simpa using ih j (by simpa using h)

lemma splitLoop_getD (d : String) (a : List ℤ) (ws : List WordTiming) :
    ∀ i j : ℕ, j < ws.length →
      (splitLoop d a ws i).getD j ("", []) =
        (d ++ "/word_" ++ toString (i + j + 1) ++ "_"
           ++ (ws.getD j default).word ++ ".wav",
         pydubSlice a (pyInt ((ws.getD j default).start * 1000))
           (pyInt ((ws.getD j default).«end» * 1000))) := by
  induction ws with
  | nil => intro i j hj; simp at hj
  | cons w ws ih =>
    intro i j hj
    cases j with
    | zero => simp [splitLoop]
    | succ j =>
      have hj' : j < ws.length := by simpa using hj
      have := ih (i + 1) j hj'
      simp only [splitLoop, List.getD_cons_succ, List.getD_cons_succ] at this ⊢
      rw [this]
      have harith : i + 1 + j + 1 = i + (j + 1) + 1 := by omega
      rw [harith]

lemma splitLoop_snd_shape (d : String) (a : List ℤ) (ws : List WordTiming) :
    ∀ i : ℕ, ∀ p ∈ splitLoop d a ws i, ∃ s e, p.2 = pydubSlice a s e := by
  induction ws with
  | nil => intro i p hp; simp [splitLoop] at hp
  | cons w ws ih =>
    intro i p hp
    simp only [splitLoop, List.mem_cons] at hp
    rcases hp with rfl | hp
    · exact ⟨_, _, rfl⟩
    · exact ih (i + 1) p hp

lemma pySlice_contiguous {α : Type} (l : List α) (a b : ℤ) :
    ∃ pre post, l = pre ++ pySlice l a b ++ post := by
  refine ⟨l.take (pyIdx l.length a).toNat,
    (l.drop (pyIdx l.length a).toNat).drop
      (pyIdx l.length b - pyIdx l.length a).toNat, ?_⟩
  unfold pySlice
  rw [List.append_assoc, List.take_append_drop, List.take_append_drop]

lemma pydubSlice_contiguous {α : Type} (l : List α) (s e : ℤ) :
    ∃ pre post, l = pre ++ pydubSlice l s e ++ post := by
  unfold pydubSlice
  exact pySlice_contiguous l _ _

/-- C3: the output of `split_audio_per_word` has the same length as the
input word-timing sequence, in input order the `i`-th (0-based) export is
named `word_{i+1}_{word}.wav` from the 1-based index and the raw word
text inside the output directory, and the two-word example
`[{hi, 0, 0.5}, {there, 0.5, 1}]` over a one-second buffer yields exactly
`word_1_hi.wav` and `word_2_there.wav`. -/
theorem split_audio_per_word_names_spec (OUTPUT_DIR : String)
    (priorDir : Option (List String)) (audio : List ℤ)
    (words : List WordTiming) :
    (split_audio_per_word OUTPUT_DIR priorDir audio words).word_files.length
        = words.length ∧
    (∀ i, i < words.length →
      (split_audio_per_word OUTPUT_DIR priorDir audio words).word_files.getD i ""
        = OUTPUT_DIR ++ "/word_" ++ toString (i + 1) ++ "_"
            ++ (words.getD i default).word ++ ".wav") ∧
    (split_audio_per_word "split_audio" none (List.replicate 1000 0)
        [⟨"hi", 0, 1/2⟩, ⟨"there", 1/2, 1⟩]).word_files
      = ["split_audio/word_1_hi.wav", "split_audio/word_2_there.wav"] := by
  refine ⟨?_, ?_, by decide⟩
  · show ((splitLoop OUTPUT_DIR audio words 0).map Prod.fst).length = words.length
    rw [List.length_map, splitLoop_length]
  · intro i hi
    show ((splitLoop OUTPUT_DIR audio words 0).map Prod.fst).getD i ""
      = OUTPUT_DIR ++ "/word_" ++ toString (i + 1) ++ "_"
          ++ (words.getD i default).word ++ ".wav"
    have hlen : i < (splitLoop OUTPUT_DIR audio words 0).length := by
      rw [splitLoop_length]; exact hi
    have h1 : ((splitLoop OUTPUT_DIR audio words 0).map Prod.fst).getD i
        (Prod.fst (("", []) : String × List ℤ))
        = Prod.fst ((splitLoop OUTPUT_DIR audio words 0).getD i ("", [])) :=
      getD_map Prod.fst _ ("", []) i hlen
    rw [h1, splitLoop_getD OUTPUT_DIR audio words 0 i hi]
    simp

/-- C3 (witness): name formula instantiated at index 0 of the two-word
example. -/
theorem split_audio_per_word_names_witness :
    (0 : ℕ) < 2 ∧
    (split_audio_per_word "split_audio" none (List.replicate 1000 0)
        [⟨"hi", 0, 1/2⟩, ⟨"there", 1/2, 1⟩]).word_files.getD 0 ""
      = "split_audio" ++ "/word_" ++ toString (0 + 1) ++ "_"
          ++ (([⟨"hi", 0, 1/2⟩, ⟨"there", 1/2, 1⟩] :
                List WordTiming).getD 0 default).word ++ ".wav" := by
  have h := split_audio_per_word_names_spec "split_audio" none
    (List.replicate 1000 0) [⟨"hi", 0, 1/2⟩, ⟨"there", 1/2, 1⟩]
  exact ⟨by decide, h.2.1 0 (by decide)⟩

/-- C4: an out-of-range or inverted word timing never aborts the batch:
every entry — the invalid one included — still produces its export (the
output length equals the input length), and every exported slice is
clamped to valid bounds, i.e. it is a contiguous sub-segment of the audio
buffer.  (Slicing in the source goes through Python slice semantics,
which clamp; no exception is raised and the session never terminates.) -/
theorem split_audio_per_word_invalid_spec (OUTPUT_DIR : String)
    (priorDir : Option (List String)) (audio : List ℤ)
    (words : List WordTiming) (k : ℕ) (hk : k < words.length)
    (hbad : (words.getD k default).«end» < (words.getD k default).start ∨
            (words.getD k default).start < 0 ∨
            (audio.length : ℚ) / 1000 < (words.getD k default).«end») :
    (split_audio_per_word OUTPUT_DIR priorDir audio words).word_files.length
        = words.length ∧
    (split_audio_per_word OUTPUT_DIR priorDir audio words).segments.length
        = words.length ∧
    (∀ s ∈ (split_audio_per_word OUTPUT_DIR priorDir audio words).segments,
      ∃ pre post, audio = pre ++ s ++ post) := by
  refine ⟨?_, ?_, ?_⟩
  · show ((splitLoop OUTPUT_DIR audio words 0).map Prod.fst).length = words.length
    rw [List.length_map, splitLoop_length]
  · show ((splitLoop OUTPUT_DIR audio words 0).map Prod.snd).length = words.length
    rw [List.length_map, splitLoop_length]
  · intro s hs
    have hs' : s ∈ (splitLoop OUTPUT_DIR audio words 0).map Prod.snd := hs
    obtain ⟨p, hp, rfl⟩ := List.mem_map.mp hs'
    obtain ⟨a, b, hab⟩ := splitLoop_snd_shape OUTPUT_DIR audio words 0 p hp
    rw [hab]
    exact pydubSlice_contiguous audio a b

/-- C4 (witness): a single word with `start = 2 > 1 = end` over a 10 ms
buffer still gets its (empty, clamped) export. -/
theorem split_audio_per_word_invalid_witness :
    ((⟨"bad", 2, 1⟩ : WordTiming).«end» < (⟨"bad", 2, 1⟩ : WordTiming).start) ∧
    (split_audio_per_word "split_audio" none (List.replicate 10 0)
        [⟨"bad", 2, 1⟩]).word_files.length = 1 := by
  have h := split_audio_per_word_invalid_spec "split_audio" none
    (List.replicate 10 0) [⟨"bad", 2, 1⟩] 0 (by decide) (Or.inl (by decide))
  exact ⟨by decide, h.1⟩

/-- C6: on an empty word-timing sequence `split_audio_per_word` returns
an empty output sequence, and the destructive directory reset still
happens: whatever the prior state of the output directory (including not
existing at all), afterwards the directory exists and is empty; no other
component of the result depends on the prior state. -/
theorem split_audio_per_word_empty_spec (OUTPUT_DIR : String)
    (priorDir : Option (List String)) (audio : List ℤ) :
    split_audio_per_word OUTPUT_DIR priorDir audio []
      = { dirContents := some [], word_files := [], segments := [] } := rfl

-- sanity checks
example : normalize_text "Hello, World!" = "hello world" := by decide
example : pySplit "  good  morning team " = ["good", "morning", "team"] := by decide
example : normalize_text "!!!..." = "" := by decide
example : (evaluate_pronunciation "good evening team" "good morning team").1
    = [("evening", "morning")] := by decide
example : (evaluate_pronunciation "a b" "a").2 = "\x1b[32ma\x1b[0m" := by decide
example : (split_audio_per_word "split_audio" (some ["old.wav"]) (List.replicate 1000 0)
    [⟨"hi", 0, 1/2⟩, ⟨"there", 1/2, 1⟩]).word_files
    = ["split_audio/word_1_hi.wav", "split_audio/word_2_there.wav"] := by decide
